import Mathlib

/-!
# Verification of the MikanOS kernel sources (FAT32 driver, logger, physical frames)

Shallow embedding of `kernel/fat.hpp`, `kernel/logger.cpp` and `kernel/memory_manager.hpp`.
Machine integers are natural numbers, reduced modulo `2 ^ w` wherever the
C++ arithmetic is carried out in a `w`-bit unsigned type.
-/

namespace fat

/-! ## Definitions: directory entries (`kernel/fat.hpp`) -/

/-- Directory entry of `fat.hpp`, one field per member, in declaration order.
`name` holds the 11 bytes of the short name, `attr` the attribute byte. -/
structure DirectoryEntry where
  name : List Nat
  attr : Nat
  ntres : Nat
  create_time_tenth : Nat
  create_time : Nat
  create_date : Nat
  last_access_date : Nat
  first_cluster_high : Nat
  write_time : Nat
  write_date : Nat
  first_cluster_low : Nat
  file_size : Nat
deriving DecidableEq, Repr

/-- Range of the values the members can hold: each member fits its C++ type. -/
def DirectoryEntry.WellFormed (e : DirectoryEntry) : Prop :=
  e.name.length = 11 ∧ (∀ b ∈ e.name, b < 2 ^ 8) ∧ e.attr < 2 ^ 8 ∧ e.ntres < 2 ^ 8 ∧
  e.create_time_tenth < 2 ^ 8 ∧ e.create_time < 2 ^ 16 ∧ e.create_date < 2 ^ 16 ∧
  e.last_access_date < 2 ^ 16 ∧ e.first_cluster_high < 2 ^ 16 ∧ e.write_time < 2 ^ 16 ∧
  e.write_date < 2 ^ 16 ∧ e.first_cluster_low < 2 ^ 16 ∧ e.file_size < 2 ^ 32

instance (e : DirectoryEntry) : Decidable e.WellFormed := by
  unfold DirectoryEntry.WellFormed; infer_instance

/-- Member function `DirectoryEntry::FirstCluster`:
`first_cluster_low | (static_cast<uint32_t>(first_cluster_high) << 16)`.
The cast and the shift are 32-bit unsigned operations. -/
def DirectoryEntry.FirstCluster (e : DirectoryEntry) : Nat :=
  (e.first_cluster_low ||| (((e.first_cluster_high % 2 ^ 32) <<< 16) % 2 ^ 32)) % 2 ^ 32

/-- Members of the packed struct `DirectoryEntry` with their sizes in bytes,
in declaration order (`Attribute` is an `enum class` over `uint8_t`). -/
def DirectoryEntry.layout : List (String × Nat) :=
  [("name", 11), ("attr", 1), ("ntres", 1), ("create_time_tenth", 1),
   ("create_time", 2), ("create_date", 2), ("last_access_date", 2),
   ("first_cluster_high", 2), ("write_time", 2), ("write_date", 2),
   ("first_cluster_low", 2), ("file_size", 4)]

/-- Members of the packed struct `BPB` with their sizes in bytes, in declaration order. -/
def BPB.layout : List (String × Nat) :=
  [("jump_boot", 3), ("oem_name", 8), ("bytes_per_sector", 2), ("sectors_per_cluster", 1),
   ("reserved_sector_count", 2), ("num_fats", 1), ("root_entry_count", 2),
   ("total_sectors_16", 2), ("media", 1), ("fat_size_16", 2), ("sectors_per_track", 2),
   ("num_heads", 2), ("hidden_sectors", 4), ("total_sectors_32", 4), ("fat_size_32", 4),
   ("ext_flags", 2), ("fs_version", 2), ("root_cluster", 4), ("fs_info", 2),
   ("backup_boot_sector", 2), ("reserved", 12), ("drive_number", 1), ("reserved1", 1),
   ("boot_signature", 1), ("volume_id", 4), ("volume_label", 11), ("fs_type", 8)]

/-- Size of a packed struct: the sum of the member sizes, no padding. -/
def packedSize (layout : List (String × Nat)) : Nat :=
  (layout.map Prod.snd).sum

/-- Byte offset of a member of a packed struct: the sizes of the members declared
before it, added up; `none` when the struct has no such member. -/
def packedOffset : List (String × Nat) → String → Option Nat
  | [], _ => none
  | (f, w) :: rest, field =>
    if f = field then some 0 else (packedOffset rest field).map (fun o => w + o)

/-- The entry of a file whose data starts at cluster `0x00030005`. -/
def sampleEntry : DirectoryEntry :=
  { name := [72, 69, 76, 76, 79, 32, 32, 32, 84, 88, 84], attr := 0x20, ntres := 0,
    create_time_tenth := 0, create_time := 0, create_date := 0, last_access_date := 0,
    first_cluster_high := 3, write_time := 0, write_date := 0, first_cluster_low := 5,
    file_size := 12 }


/-! ## Definitions: cluster addressing and the FAT (`fat.cpp` is not part of the sources) -/

/-- Modelled from the spec: the volume parameters that `Initialize` derives from the BPB
(`fat.cpp`, which holds `Initialize`, is missing). Spec, Data model: the driver keeps
the data-region origin, bytes-per-sector and sectors-per-cluster, fixed for the
lifetime of the mount. -/
structure Volume where
  data_region_base : Nat
  bytes_per_sector : Nat
  sectors_per_cluster : Nat
deriving DecidableEq, Repr

/-- Modelled from the spec: the global `bytes_per_cluster` declared in `fat.hpp` and set
by the missing `Initialize`; spec invariant
`bytes_per_cluster = bytes_per_sector * sectors_per_cluster`. -/
def Volume.bytes_per_cluster (v : Volume) : Nat :=
  v.bytes_per_sector * v.sectors_per_cluster

/-- Modelled from the spec: `GetClusterAddr` is declared in `fat.hpp`, its body
(`fat.cpp`) is missing. Spec 4.2: "data-region base + `(cluster - 2) * bytes_per_cluster`".
The subtraction, the product and the sum are carried out on 64-bit unsigned values
(`unsigned long`, `uintptr_t`) and wrap modulo `2 ^ 64`. -/
def GetClusterAddr (v : Volume) (cluster : Nat) : Nat :=
  (v.data_region_base + (((cluster + 2 ^ 64 - 2) % 2 ^ 64) * v.bytes_per_cluster) % 2 ^ 64)
    % 2 ^ 64

/-- A volume of 512-byte sectors and 8 sectors per cluster, data region at `0x100000`. -/
def sampleVolume : Volume :=
  { data_region_base := 0x100000, bytes_per_sector := 512, sectors_per_cluster := 8 }

/-- Constant `kEndOfClusterchain = 0x0ffffffflu` of `fat.hpp`. -/
def kEndOfClusterchain : Nat := 0x0fffffff

/-- Modelled from the spec: `IsEndOfClusterchain` is declared in `fat.hpp`, its body is
missing. Spec 3 and 4.3: "values ≥ 0x0FFFFFF8 denote end-of-chain"; the function
"compares against the sentinel threshold". -/
def IsEndOfClusterchain (cluster : Nat) : Bool :=
  decide (0x0ffffff8 ≤ cluster)

/-- Modelled from the spec: `NextCluster` is declared in `fat.hpp`, its body is missing.
Spec 4.3: "reads the FAT entry; returns the end-of-chain sentinel if the entry denotes
end-of-chain". The FAT is the list of its 32-bit entries, indexed by cluster number;
an index past the table is read as 0. -/
def NextCluster (fat : List Nat) (cluster : Nat) : Nat :=
  let next := fat.getD cluster 0
  if IsEndOfClusterchain next then kEndOfClusterchain else next

/-! ## Definitions: file descriptors (`kernel/fat.hpp`) -/

/-- Entries of the mapped volume image, by address: what a `DirectoryEntry&` refers to. -/
abbrev EntryStore := Nat → DirectoryEntry

/-- Class `fat::FileDescriptor`: the reference `fat_entry_` (address of the borrowed
entry) and the six cursor members. -/
structure FileDescriptor where
  fat_entry_ : Nat
  rd_off_ : Nat
  rd_cluster_ : Nat
  rd_cluster_off_ : Nat
  wr_off_ : Nat
  wr_cluster_ : Nat
  wr_cluster_off_ : Nat
deriving DecidableEq, Repr

/-- Constructor `FileDescriptor(DirectoryEntry &fat_entry)`: binds the reference; the
cursor members take their default member initialisers `= 0` of `fat.hpp`. -/
def FileDescriptor.new (fat_entry : Nat) : FileDescriptor :=
  { fat_entry_ := fat_entry, rd_off_ := 0, rd_cluster_ := 0, rd_cluster_off_ := 0,
    wr_off_ := 0, wr_cluster_ := 0, wr_cluster_off_ := 0 }

/-- Member function `Size() const { return fat_entry_.file_size; }`, in state-passing
form: the returned size together with the descriptor and the entries after the call.
The conversion of the 32-bit `file_size` to `size_t` keeps the value. -/
def FileDescriptor.Size (fd : FileDescriptor) (entries : EntryStore) :
    Nat × FileDescriptor × EntryStore :=
  ((entries fd.fat_entry_).file_size, fd, entries)

/-- Assignment `e.file_size = size` through a pointer to the entry at `addr`. -/
def setFileSize (entries : EntryStore) (addr size : Nat) : EntryStore :=
  fun a => if a = addr then { entries a with file_size := size } else entries a

/-! ## Definitions: cluster chain allocation (`fat.cpp` is not part of the sources) -/

/-- Modelled from the spec: the order of the "linear scan of the FAT array" of spec 4.3
(the bodies of `ExtendCluster` and `AllocateClusterChain` are missing): the cluster
numbers of the table in increasing order, from cluster 2 on (spec 3: clusters 0 and 1
are reserved and never addressed). -/
def scanOrder (fat : List Nat) : List Nat :=
  (List.range fat.length).filter (fun c => decide (2 ≤ c))

/-- Modelled from the spec: the free clusters in scan order. Spec 3: "a free cluster is
discovered by linear scan for a zero ... entry". -/
def freeClusters (fat : List Nat) : List Nat :=
  (scanOrder fat).filter (fun c => fat.getD c 0 == 0)

/-- Modelled from the spec: the scan of `ExtendCluster` (spec 4.3, `ExtendClusterChain`):
"finds `n` free clusters (linear scan of the FAT array, unordered, first-fit), links them
to `chain_tail` and to each other in scan order, marks the new final cluster as
end-of-chain". `current` is the last cluster of the chain so far, the third argument
holds the clusters still to be scanned, the last one the number of clusters still to
be found; when the scan runs out of clusters the chain is ended where it stands.
The result is the FAT after the call and the new last cluster. The zero-filling of the
data of the new clusters does not touch the FAT and is left out. -/
def extendLoop : List Nat → Nat → List Nat → Nat → List Nat × Nat
  | fat, current, _, 0 => (fat.set current kEndOfClusterchain, current)
  | fat, current, [], _ + 1 => (fat.set current kEndOfClusterchain, current)
  | fat, current, candidate :: rest, n + 1 =>
    if fat.getD candidate 0 == 0 then
      extendLoop (fat.set current candidate) candidate rest n
    else
      extendLoop fat current rest (n + 1)

/-- Modelled from the spec: `ExtendCluster(eoc_cluster, n)` is declared in `fat.hpp`,
its body is missing; spec 4.3, `ExtendClusterChain(chain_tail, n) -> new_tail`. -/
def ExtendCluster (fat : List Nat) (eoc_cluster n : Nat) : List Nat × Nat :=
  extendLoop fat eoc_cluster (scanOrder fat) n

/-- Modelled from the spec: `AllocateClusterChain(n)` is declared in `fat.hpp` ("Makes a
chain consisting of the specified number of empty clusters ... return The beginning
cluster number of the chain"), its body is missing. Spec 4.3: "allocates a brand-new
chain of `n` clusters (no pre-existing tail) by starting from a synthetic end-of-chain
tail and extending": the first free cluster is marked end-of-chain and that one-cluster
chain is extended by the remaining `n - 1` clusters (`size_t` arithmetic). The result
is the FAT after the call and the first cluster; `none` when no cluster is free. -/
def AllocateClusterChain (fat : List Nat) (n : Nat) : Option (List Nat × Nat) :=
  match (freeClusters fat).head? with
  | none => none
  | some first_cluster =>
    let tail := fat.set first_cluster kEndOfClusterchain
    some ((ExtendCluster tail first_cluster ((n + 2 ^ 64 - 1) % 2 ^ 64)).1, first_cluster)

/-- Traversal of a chain: the number of clusters visited by following `NextCluster`
from `cluster` until `kEndOfClusterchain` is returned; `none` when the sentinel is not
reached within `fuel` clusters. -/
def chainLength (fat : List Nat) : Nat → Nat → Option Nat
  | 0, _ => none
  | fuel + 1, cluster =>
    if cluster = kEndOfClusterchain then some 0
    else (chainLength fat fuel (NextCluster fat cluster)).map (fun k => k + 1)

/-- The FAT links `current` to the clusters of the list, one after the other, and marks
the last of them (or `current`, for the empty list) as end-of-chain. -/
def Linked (fat : List Nat) : Nat → List Nat → Prop
  | current, [] => fat.getD current 0 = kEndOfClusterchain
  | current, c :: cs => fat.getD current 0 = c ∧ Linked fat c cs

/-- A FAT of 12 entries: chain 4 → 5, chain 8 → 9, and clusters 3, 6, 7, 10, 11 free. -/
def sampleFat : List Nat :=
  [0x0ffffff8, 0x0fffffff, 0x0fffffff, 0, 5, 0x0ffffff8, 0, 0, 9, 0x0fffffff, 0, 0]

/-! ## Definitions: short-name codec (`fat.cpp` is not part of the sources) -/

/-- C library `toupper` in the "C" locale, on a byte: `a`..`z` map to `A`..`Z`. -/
def toupper (c : Nat) : Nat :=
  if 97 ≤ c ∧ c ≤ 122 then c - 32 else c

/-- Modelled from the spec: the parsing step of `SetFileName` (`fat.cpp` is missing).
`fat.hpp`: the name consists "of the base name and extension joined by a dot" (byte 46).
A name is split at its last dot into the base before it and the extension after it;
`none` when the name has no dot. -/
def splitLastDot : List Nat → Option (List Nat × List Nat)
  | [] => none
  | c :: cs =>
    match splitLastDot cs with
    | some (base, ext) => some (c :: base, ext)
    | none => if c = 46 then some ([], cs) else none

/-- Modelled from the spec: one field of the packed short name, spec 4.4 "upper-casing
and space-padding", a part longer than the field being truncated to the 8.3 limit. -/
def padField (n : Nat) (s : List Nat) : List Nat :=
  (s.take n).map toupper ++ List.replicate (n - s.length) 0x20

/-- Modelled from the spec: `SetFileName` is declared in `fat.hpp`, its body is missing.
Spec 4.4: "parses a dotted name back into the padded 11-byte form, upper-casing and
space-padding". `name` is the C string without its terminating NUL. -/
def SetFileName (entry : DirectoryEntry) (name : List Nat) : DirectoryEntry :=
  match splitLastDot name with
  | some (base, ext) => { entry with name := padField 8 base ++ padField 3 ext }
  | none => { entry with name := padField 8 name ++ padField 3 [] }

/-- Modelled from the spec: one output of `ReadName`. `fat.hpp`: "The short name is
stripped of padded white space (0x20) and null-terminated": trailing spaces are
dropped, and the C string that results ends before the first NUL byte. -/
def trimField (bytes : List Nat) : List Nat :=
  (bytes.rdropWhile (fun b => b == 0x20)).takeWhile (fun b => b != 0)

/-- Modelled from the spec: `ReadName` is declared in `fat.hpp`, its body is missing.
Spec 4.4: "splits the padded 11-byte short name into a null-terminated base (≤8 chars
+ terminator) and extension (≤3 chars + terminator), trimming trailing 0x20 padding".
The result is the pair of C strings `(base, ext)`. -/
def ReadName (entry : DirectoryEntry) : List Nat × List Nat :=
  (trimField (entry.name.take 8), trimField ((entry.name.drop 8).take 3))

/-- Modelled from the spec: `FormatName` is declared in `fat.hpp`, its body is missing.
`fat.hpp`: "If the extension of the short name is empty, the funtion copies `<base>`,
otherwise it copies `<base>.<ext>`". The result is the C string left in `dest`. -/
def FormatName (entry : DirectoryEntry) : List Nat :=
  let (base, ext) := ReadName entry
  if ext = [] then base else base ++ 46 :: ext

/-! ## Definitions: path resolution (`fat.cpp` is not part of the sources) -/

/-- Modelled from the spec: `NameIsEqual` is declared in `fat.hpp`, its body is missing.
Spec 4.4: "case-insensitive comparison against the packed short name": the name is
packed as `SetFileName` packs it, upper-cased, and compared with the 11 stored bytes. -/
def NameIsEqual (entry : DirectoryEntry) (name : List Nat) : Bool :=
  decide (entry.name = (SetFileName entry name).name)

/-- Outcome of the scan of the entries of one cluster for a name. -/
inductive ClusterScan where
  | found (index : Nat) (entry : DirectoryEntry)
  | endOfDirectory
  | nextCluster
deriving DecidableEq, Repr

/-- Modelled from the spec: the scan of the entries of one directory cluster, spec 4.5:
"stopping at the first 0x00 name byte, skipping 0xE5 slots", looking "for a
case-insensitive short-name match". `index` is the index of the first entry of the list
within its cluster. -/
def scanCluster : List DirectoryEntry → List Nat → Nat → ClusterScan
  | [], _, _ => .nextCluster
  | entry :: rest, name, index =>
    if entry.name.head? = some 0x00 then .endOfDirectory
    else if entry.name.head? = some 0xE5 then scanCluster rest name (index + 1)
    else if NameIsEqual entry name then .found index entry
    else scanCluster rest name (index + 1)

end fat

/-! ## Definitions: logger (`kernel/logger.hpp`, `kernel/logger.cpp`) -/

/-- Enumeration `LogLevel` of `logger.hpp`. -/
inductive LogLevel where
  | kError
  | kWarn
  | kInfo
  | kDebug
deriving DecidableEq, Repr

/-- Enumerator values of `LogLevel`: `kError = 3, kWarn = 4, kInfo = 6, kDebug = 7`. -/
def LogLevel.toNat : LogLevel → Nat
  | .kError => 3
  | .kWarn => 4
  | .kInfo => 6
  | .kDebug => 7

/-- State read and written by the logger: the file-local `log_level` and the console,
observed through the arguments of the `console->PutString` calls made so far
(oldest first). -/
structure LoggerState where
  log_level : LogLevel
  console : List (List Nat)
deriving DecidableEq, Repr

/-- State at start-up: `LogLevel log_level = kWarn;` and a console nothing was put to. -/
def LoggerState.initial : LoggerState :=
  { log_level := .kWarn, console := [] }

/-- Function `SetLogLevel` of `logger.cpp`: `log_level = level;`. -/
def SetLogLevel (st : LoggerState) (level : LogLevel) : LoggerState :=
  { st with log_level := level }

/-- Size of the local buffer `char s[1024]` of `Log`. -/
def kLogBufferSize : Nat := 1024

/-- Function `Log` of `logger.cpp`. `formatted` is the character sequence that
`vsprintf(s, format, ap)` produces for the call's format string and arguments; its
length is the value `vsprintf` returns. The result is the returned `int` and the state
after the call; `none` when `vsprintf` would write past the end of `s` (the characters
and the terminating NUL do not fit), which C++ leaves undefined. -/
def Log (st : LoggerState) (level : LogLevel) (formatted : List Nat) :
    Option (Int × LoggerState) :=
  if level.toNat > st.log_level.toNat then
    some (0, st)
  else if formatted.length < kLogBufferSize then
    some ((formatted.length : Int), { st with console := st.console ++ [formatted] })
  else
    none

/-! ## Definitions: physical frames (`kernel/memory_manager.hpp`) -/

/-- Literal operator `operator""_KiB`: `kib * 1024` on `unsigned long long`. -/
def KiB (kib : Nat) : Nat :=
  (kib * 1024) % 2 ^ 64

/-- Literal operator `operator""_MiB`: `mib * 1024_KiB` on `unsigned long long`. -/
def MiB (mib : Nat) : Nat :=
  (mib * KiB 1024) % 2 ^ 64

/-- Literal operator `operator""_GiB`: `gib * 1024_MiB` on `unsigned long long`. -/
def GiB (gib : Nat) : Nat :=
  (gib * MiB 1024) % 2 ^ 64

/-- Constant `kBytesPerFrame{4_KiB}`. -/
def kBytesPerFrame : Nat := KiB 4

/-- Class `FrameID`: the member `id_` of type `size_t`, set by the constructor
`FrameID(size_t id) : id_{id}`. -/
structure FrameID where
  id_ : Nat
deriving DecidableEq, Repr

/-- Member function `ID() const { return id_; }`. -/
def FrameID.ID (f : FrameID) : Nat :=
  f.id_

/-- Member function `Frame()`: the address `id_ * kBytesPerFrame`, a product of 64-bit
unsigned values, cast to a pointer. -/
def FrameID.Frame (f : FrameID) : Nat :=
  (f.id_ * kBytesPerFrame) % 2 ^ 64

/-- Constant `BitmapMemoryManager::kMaxPhysicalMemoryBytes{128_GiB}`. -/
def kMaxPhysicalMemoryBytes : Nat := GiB 128

/-- Constant `BitmapMemoryManager::kFrameCount{kMaxPhysicalMemoryBytes / kBytesPerFrame}`. -/
def kFrameCount : Nat := kMaxPhysicalMemoryBytes / kBytesPerFrame

/-- Value of `sizeof(MapLineType)` for `using MapLineType = unsigned long` on the x86-64
target of the kernel (LP64): 8 bytes. -/
def sizeofMapLineType : Nat := 8

/-- Constant `BitmapMemoryManager::kBitsPerMapLine{8 * sizeof(MapLineType)}`. -/
def kBitsPerMapLine : Nat := 8 * sizeofMapLineType

/-- Number of elements of the member
`std::array<MapLineType, kFrameCount / kBitsPerMapLine> alloc_map_`. -/
def allocMapLength : Nat := kFrameCount / kBitsPerMapLine

/-! ## Theorems -/

namespace fat

/-- Two halves glued by a 16-bit shift and a bitwise or add up without carry. -/
theorem lor_shift16 (lo hi : Nat) (hlo : lo < 2 ^ 16) :
    lo ||| (hi <<< 16) = 2 ^ 16 * hi + lo := by
  rw [Nat.shiftLeft_eq, Nat.mul_comm hi, Nat.lor_comm]
  exact (Nat.mul_add_lt_is_or hlo hi).symm

/-- The value of `FirstCluster` on an entry whose halves fit 16 bits. -/
theorem FirstCluster_eq_add (e : DirectoryEntry)
    (hlo : e.first_cluster_low < 2 ^ 16) (hhi : e.first_cluster_high < 2 ^ 16) :
    e.FirstCluster = 2 ^ 16 * e.first_cluster_high + e.first_cluster_low := by
  unfold DirectoryEntry.FirstCluster
  have h1 : e.first_cluster_high % 2 ^ 32 = e.first_cluster_high :=
    Nat.mod_eq_of_lt (by omega)
  have h2 : (e.first_cluster_high <<< 16) % 2 ^ 32 = e.first_cluster_high <<< 16 := by
    rw [Nat.shiftLeft_eq]
    exact Nat.mod_eq_of_lt (by omega)
  rw [h1, h2, lor_shift16 _ _ hlo]
  exact Nat.mod_eq_of_lt (by omega)

/-- C1: for every well-formed directory entry, `FirstCluster()` is
`first_cluster_low | (first_cluster_high << 16)` as a 32-bit value; its low 16 bits
are `first_cluster_low`, its high 16 bits are `first_cluster_high`; entries with the
same two halves have the same first cluster whatever their other fields are, entries
with the same first cluster have the same halves, and the result is 0 exactly when
both halves are 0. -/
theorem FirstCluster_spec (e : DirectoryEntry) (he : e.WellFormed) :
    e.FirstCluster = e.first_cluster_low ||| (e.first_cluster_high <<< 16) ∧
    e.FirstCluster < 2 ^ 32 ∧
    e.FirstCluster % 2 ^ 16 = e.first_cluster_low ∧
    e.FirstCluster / 2 ^ 16 = e.first_cluster_high ∧
    e.FirstCluster &&& 0xFFFF = e.first_cluster_low ∧
    e.FirstCluster >>> 16 = e.first_cluster_high ∧
    (∀ e2 : DirectoryEntry, e2.first_cluster_low = e.first_cluster_low →
      e2.first_cluster_high = e.first_cluster_high → e2.FirstCluster = e.FirstCluster) ∧
    (∀ e2 : DirectoryEntry, e2.WellFormed → e2.FirstCluster = e.FirstCluster →
      e2.first_cluster_low = e.first_cluster_low ∧
      e2.first_cluster_high = e.first_cluster_high) ∧
    (e.FirstCluster = 0 ↔ e.first_cluster_low = 0 ∧ e.first_cluster_high = 0) := by
  obtain ⟨_, _, _, _, _, _, _, _, hhi, _, _, hlo, _⟩ := he
  have hv := FirstCluster_eq_add e hlo hhi
  have hmask : e.FirstCluster &&& 0xFFFF = e.FirstCluster % 2 ^ 16 :=
    Nat.and_pow_two_sub_one_eq_mod e.FirstCluster 16
  refine ⟨?_, ?_, ?_, ?_, ?_, ?_, ?_, ?_, ?_⟩
  · rw [hv, lor_shift16 _ _ hlo]
  · omega
  · omega
  · omega
  · rw [hmask]; omega
  · rw [Nat.shiftRight_eq_div_pow]; omega
  · intro e2 h1 h2
    unfold DirectoryEntry.FirstCluster
    rw [h1, h2]
  · intro e2 he2 h
    obtain ⟨_, _, _, _, _, _, _, _, hhi2, _, _, hlo2, _⟩ := he2
    have hv2 := FirstCluster_eq_add e2 hlo2 hhi2
    omega
  · omega

/-- C1 at the sample entry. -/
theorem FirstCluster_spec_witness :
    sampleEntry.WellFormed ∧ sampleEntry.FirstCluster = 0x00030005 ∧
    sampleEntry.FirstCluster % 2 ^ 16 = 5 ∧ sampleEntry.FirstCluster / 2 ^ 16 = 3 :=
  have h : sampleEntry.WellFormed := by decide
  ⟨h, by decide, (FirstCluster_spec sampleEntry h).2.2.1, (FirstCluster_spec sampleEntry h).2.2.2.1⟩

/-- Within the 64-bit range the wrapping arithmetic of `GetClusterAddr` is exact. -/
theorem GetClusterAddr_exact (v : Volume) (c : Nat) (h2 : 2 ≤ c) (hc : c < 2 ^ 64)
    (hov : v.data_region_base + (c - 2) * v.bytes_per_cluster < 2 ^ 64) :
    GetClusterAddr v c = v.data_region_base + (c - 2) * v.bytes_per_cluster := by
  unfold GetClusterAddr
  have h1 : (c + 2 ^ 64 - 2) % 2 ^ 64 = c - 2 := by omega
  rw [h1, Nat.mod_eq_of_lt (a := (c - 2) * v.bytes_per_cluster) (by omega)]
  exact Nat.mod_eq_of_lt hov

/-- C2: on a volume with `bytes_per_cluster = bytes_per_sector * sectors_per_cluster > 0`
and for clusters `2 ≤ c ≤ hi` whose addresses do not overflow 64 bits,
`GetClusterAddr c` is data-region base `+ (c - 2) * bytes_per_cluster`; cluster 2 sits
at the data-region base, consecutive clusters are exactly `bytes_per_cluster` apart and
the address is strictly increasing in the cluster number. -/
theorem GetClusterAddr_spec (v : Volume) (hi : Nat)
    (hpos : 0 < v.bytes_per_sector * v.sectors_per_cluster) (hhi : hi < 2 ^ 64)
    (hov : v.data_region_base + (hi - 2) * v.bytes_per_cluster < 2 ^ 64) :
    v.bytes_per_cluster = v.bytes_per_sector * v.sectors_per_cluster ∧
    (∀ c, 2 ≤ c → c ≤ hi →
      GetClusterAddr v c = v.data_region_base + (c - 2) * v.bytes_per_cluster) ∧
    (2 ≤ hi → GetClusterAddr v 2 = v.data_region_base) ∧
    (∀ c, 2 ≤ c → c + 1 ≤ hi →
      GetClusterAddr v (c + 1) - GetClusterAddr v c = v.bytes_per_cluster ∧
      GetClusterAddr v (c + 1) = GetClusterAddr v c + v.bytes_per_cluster) ∧
    (∀ c d, 2 ≤ c → c < d → d ≤ hi → GetClusterAddr v c < GetClusterAddr v d) := by
  have hbpc : 0 < v.bytes_per_cluster := hpos
  have key : ∀ c, 2 ≤ c → c ≤ hi →
      GetClusterAddr v c = v.data_region_base + (c - 2) * v.bytes_per_cluster := by
    intro c h2 hc
    have hle : (c - 2) * v.bytes_per_cluster ≤ (hi - 2) * v.bytes_per_cluster :=
      Nat.mul_le_mul_right _ (by omega)
    exact GetClusterAddr_exact v c h2 (by omega) (by omega)
  refine ⟨rfl, key, ?_, ?_, ?_⟩
  · intro h
    rw [key 2 (le_refl 2) h]
    simp
  · intro c h2 hc
    rw [key c h2 (by omega), key (c + 1) (by omega) hc]
    have e : c + 1 - 2 = (c - 2) + 1 := by omega
    rw [e, Nat.add_mul, Nat.one_mul]
    omega
  · intro c d h2 hcd hd
    rw [key c h2 (by omega), key d (by omega) hd]
    have hle : (c - 2 + 1) * v.bytes_per_cluster ≤ (d - 2) * v.bytes_per_cluster :=
      Nat.mul_le_mul_right _ (by omega)
    rw [Nat.add_mul, Nat.one_mul] at hle
    omega

/-- C2 on a volume of 512-byte sectors, 8 sectors per cluster, data region at `0x100000`:
cluster 5 is at `0x100000 + 3 * 4096`, and clusters 2..1000 are 4096 bytes apart. -/
theorem GetClusterAddr_spec_witness :
    GetClusterAddr sampleVolume 5 = 0x100000 + 3 * 4096 ∧
    GetClusterAddr sampleVolume 2 = 0x100000 ∧
    GetClusterAddr sampleVolume 6 - GetClusterAddr sampleVolume 5 = 4096 ∧
    GetClusterAddr sampleVolume 5 < GetClusterAddr sampleVolume 1000 :=
  have h := GetClusterAddr_spec sampleVolume 1000 (by decide) (by decide) (by decide)
  ⟨h.2.1 5 (by decide) (by decide), h.2.2.1 (by decide),
   (h.2.2.2.1 5 (by decide) (by decide)).1, h.2.2.2.2 5 1000 (by decide) (by decide) (by decide)⟩

/-- C5: when the FAT entry of cluster `c` holds `v`, `NextCluster c` is
`kEndOfClusterchain = 0x0FFFFFFF` if `v ≥ 0x0FFFFFF8` and `v` otherwise;
`IsEndOfClusterchain x` holds exactly when `x ≥ 0x0FFFFFF8`, it holds of
`kEndOfClusterchain`, and `NextCluster` never returns a value in
`0x0FFFFFF8 .. 0x0FFFFFFE`. -/
theorem NextCluster_spec (fat : List Nat) (c v : Nat) (hv : fat[c]? = some v) :
    kEndOfClusterchain = 0x0FFFFFFF ∧
    (0x0FFFFFF8 ≤ v → NextCluster fat c = kEndOfClusterchain) ∧
    (v < 0x0FFFFFF8 → NextCluster fat c = v) ∧
    (∀ x, IsEndOfClusterchain x = true ↔ 0x0FFFFFF8 ≤ x) ∧
    IsEndOfClusterchain kEndOfClusterchain = true ∧
    ¬ (0x0FFFFFF8 ≤ NextCluster fat c ∧ NextCluster fat c ≤ 0x0FFFFFFE) := by
  have hget : fat.getD c 0 = v := by
    rw [List.getD_eq_getElem?_getD, hv]; rfl
  have hnext : NextCluster fat c = if 0x0FFFFFF8 ≤ v then kEndOfClusterchain else v := by
    simp only [NextCluster, IsEndOfClusterchain, hget, decide_eq_true_eq]
  refine ⟨rfl, ?_, ?_, ?_, by decide, ?_⟩
  · intro h
    rw [hnext, if_pos h]
  · intro h
    rw [hnext, if_neg (by omega)]
  · intro x
    simp [IsEndOfClusterchain]
  · rw [hnext]
    split
    · simp [kEndOfClusterchain]
    · omega

/-- C5 on a four-entry FAT: cluster 2 links to 3, cluster 3 ends the chain with the
mark `0x0FFFFFF8`, which `NextCluster` reports as `kEndOfClusterchain`. -/
theorem NextCluster_spec_witness :
    NextCluster [0x0FFFFFF8, 0x0FFFFFFF, 3, 0x0FFFFFF8] 3 = kEndOfClusterchain ∧
    NextCluster [0x0FFFFFF8, 0x0FFFFFFF, 3, 0x0FFFFFF8] 2 = 3 :=
  ⟨(NextCluster_spec [0x0FFFFFF8, 0x0FFFFFFF, 3, 0x0FFFFFF8] 3 0x0FFFFFF8 rfl).2.1 (by decide),
   (NextCluster_spec [0x0FFFFFF8, 0x0FFFFFFF, 3, 0x0FFFFFF8] 2 3 rfl).2.2.1 (by decide)⟩

/-- C7: the packed `DirectoryEntry` is 32 bytes, its member sizes in declaration order
are 11,1,1,1,2,2,2,2,2,2,2,4, with `name` at offset 0, `attr` at 11,
`first_cluster_high` at 20, `first_cluster_low` at 26 and `file_size` at 28; the packed
`BPB` is 90 bytes with `bytes_per_sector` at offset 11, `sectors_per_cluster` at 13,
`fat_size_32` at 36 and `root_cluster` at 44. -/
theorem packed_layout_spec :
    DirectoryEntry.layout.map Prod.snd = [11, 1, 1, 1, 2, 2, 2, 2, 2, 2, 2, 4] ∧
    packedSize DirectoryEntry.layout = 32 ∧
    packedOffset DirectoryEntry.layout "name" = some 0 ∧
    packedOffset DirectoryEntry.layout "attr" = some 11 ∧
    packedOffset DirectoryEntry.layout "first_cluster_high" = some 20 ∧
    packedOffset DirectoryEntry.layout "first_cluster_low" = some 26 ∧
    packedOffset DirectoryEntry.layout "file_size" = some 28 ∧
    packedSize BPB.layout = 90 ∧
    packedOffset BPB.layout "bytes_per_sector" = some 11 ∧
    packedOffset BPB.layout "sectors_per_cluster" = some 13 ∧
    packedOffset BPB.layout "fat_size_32" = some 36 ∧
    packedOffset BPB.layout "root_cluster" = some 44 := by
  refine ⟨rfl, rfl, ?_, ?_, ?_, ?_, ?_, rfl, ?_, ?_, ?_, ?_⟩ <;> decide

/-- C8: a descriptor constructed over the entry at `addr` starts with all six cursors
at 0; `Size()` returns the `file_size` of that entry, whatever the cursors hold, leaves
the descriptor and every entry as they were, and after `file_size` of the entry is
assigned a new value the next `Size()` returns that value. -/
theorem FileDescriptor_Size_spec (entries : EntryStore) (addr : Nat) :
    ((FileDescriptor.new addr).rd_off_ = 0 ∧ (FileDescriptor.new addr).rd_cluster_ = 0 ∧
      (FileDescriptor.new addr).rd_cluster_off_ = 0 ∧ (FileDescriptor.new addr).wr_off_ = 0 ∧
      (FileDescriptor.new addr).wr_cluster_ = 0 ∧
      (FileDescriptor.new addr).wr_cluster_off_ = 0) ∧
    ((FileDescriptor.new addr).Size entries).1 = (entries addr).file_size ∧
    (∀ fd : FileDescriptor, fd.fat_entry_ = addr →
      (fd.Size entries).1 = (entries addr).file_size) ∧
    (∀ fd : FileDescriptor, (fd.Size entries).2 = (fd, entries)) ∧
    (∀ (fd : FileDescriptor) (size : Nat), fd.fat_entry_ = addr →
      (fd.Size (setFileSize entries addr size)).1 = size ∧
      (((fd.Size entries).2.1).Size (setFileSize ((fd.Size entries).2.2) addr size)).1 = size) := by
  refine ⟨⟨rfl, rfl, rfl, rfl, rfl, rfl⟩, rfl, ?_, ?_, ?_⟩
  · intro fd h
    simp [FileDescriptor.Size, h]
  · intro fd
    rfl
  · intro fd size h
    simp [FileDescriptor.Size, setFileSize, h]

/-- Upper-casing yields a space only from a space. -/
theorem toupper_eq_space (c : Nat) : toupper c = 0x20 ↔ c = 0x20 := by
  unfold toupper; split <;> omega

/-- Upper-casing yields NUL only from NUL. -/
theorem toupper_eq_zero (c : Nat) : toupper c = 0 ↔ c = 0 := by
  unfold toupper; split <;> omega

/-- A name without a dot has no extension part. -/
theorem splitLastDot_none (l : List Nat) (h : 46 ∉ l) : splitLastDot l = none := by
  induction l with
  | nil => rfl
  | cons c cs ih =>
    simp only [List.mem_cons, not_or] at h
    simp [splitLastDot, ih h.2, Ne.symm h.1]

/-- A name is split at its last dot. -/
theorem splitLastDot_dotted (base ext : List Nat) (h : 46 ∉ ext) :
    splitLastDot (base ++ 46 :: ext) = some (base, ext) := by
  induction base with
  | nil => simp [splitLastDot, splitLastDot_none ext h]
  | cons c cs ih => simp [splitLastDot, ih]

/-- A part that fits its field is stored whole, upper-cased, then padded. -/
theorem padField_of_le (n : Nat) (s : List Nat) (h : s.length ≤ n) :
    padField n s = s.map toupper ++ List.replicate (n - s.length) 0x20 := by
  unfold padField
  rw [List.take_of_length_le h]

/-- A packed field has exactly the width of the field. -/
theorem padField_length (n : Nat) (s : List Nat) (h : s.length ≤ n) :
    (padField n s).length = n := by
  rw [padField_of_le n s h]
  simp
  omega

/-- Trailing padding is removed by the trim. -/
theorem rdropWhile_append_replicate (l : List Nat) (k : Nat) :
    (l ++ List.replicate k 0x20).rdropWhile (fun b => b == 0x20)
      = l.rdropWhile (fun b => b == 0x20) := by
  induction k with
  | zero => simp
  | succ k ih =>
    rw [List.replicate_succ', ← List.append_assoc, List.rdropWhile_concat_pos _ _ _ (by simp)]
    exact ih

/-- Reading back a padded field gives the upper-cased part, when the part has no NUL
and does not end in a space. -/
theorem trimField_pad (s : List Nat) (k : Nat) (h0 : 0 ∉ s)
    (hsp : s.getLast? ≠ some 0x20) :
    trimField (s.map toupper ++ List.replicate k 0x20) = s.map toupper := by
  unfold trimField
  rw [rdropWhile_append_replicate]
  have h1 : (s.map toupper).rdropWhile (fun b => b == 0x20) = s.map toupper := by
    rw [List.rdropWhile_eq_self_iff]
    intro hne
    have hs : s ≠ [] := by simpa using hne
    rw [List.getLast_map toupper s hne]
    simp only [beq_iff_eq, toupper_eq_space]
    intro hl
    apply hsp
    rw [List.getLast?_eq_getLast s hs, hl]
  rw [h1, List.takeWhile_eq_self_iff]
  intro x hx
  obtain ⟨y, hy, rfl⟩ := List.mem_map.mp hx
  simp only [bne_iff_ne, ne_eq, toupper_eq_zero]
  rintro rfl
  exact h0 hy

/-- Reading the name that packs `base` and `ext` gives both back, upper-cased. -/
theorem ReadName_packed (e : DirectoryEntry) (base ext : List Nat)
    (hb : base.length ≤ 8) (hx : ext.length ≤ 3) (hb0 : 0 ∉ base) (hx0 : 0 ∉ ext)
    (hbs : base.getLast? ≠ some 0x20) (hxs : ext.getLast? ≠ some 0x20) :
    ReadName { e with name := padField 8 base ++ padField 3 ext }
      = (base.map toupper, ext.map toupper) := by
  unfold ReadName
  have l8 := padField_length 8 base hb
  have l3 := padField_length 3 ext hx
  simp only
  rw [List.take_left' l8, List.drop_left' l8, List.take_of_length_le (by omega),
    padField_of_le 8 base hb, padField_of_le 3 ext hx,
    trimField_pad base _ hb0 hbs, trimField_pad ext _ hx0 hxs]

/-- C3 (as amended): for a base of at most 8 characters and an extension of at most 3
characters without a dot, neither containing NUL nor ending in a space (0x20),
`SetFileName` on `<base>.<ext>` stores the upper-cased base and extension, each padded
with spaces to 8 and 3 bytes, and `FormatName` then yields the upper-cased `<base>`
when the extension is empty and the upper-cased `<base>.<ext>` (the upper-cased
original name) otherwise; a name without a dot is the case of the empty extension. -/
theorem name_round_trip (e : DirectoryEntry) (base ext : List Nat)
    (hb : base.length ≤ 8) (hx : ext.length ≤ 3) (hb0 : 0 ∉ base) (hx0 : 0 ∉ ext)
    (hbs : base.getLast? ≠ some 0x20) (hxs : ext.getLast? ≠ some 0x20) (hdot : 46 ∉ ext) :
    (SetFileName e (base ++ 46 :: ext)).name =
      (base.map toupper ++ List.replicate (8 - base.length) 0x20) ++
      (ext.map toupper ++ List.replicate (3 - ext.length) 0x20) ∧
    (SetFileName e (base ++ 46 :: ext)).name.length = 11 ∧
    FormatName (SetFileName e (base ++ 46 :: ext)) =
      (if ext = [] then base.map toupper else base.map toupper ++ 46 :: ext.map toupper) ∧
    (ext ≠ [] →
      FormatName (SetFileName e (base ++ 46 :: ext)) = (base ++ 46 :: ext).map toupper) ∧
    (46 ∉ base →
      (SetFileName e base).name =
        (base.map toupper ++ List.replicate (8 - base.length) 0x20) ++
        List.replicate 3 0x20 ∧
      FormatName (SetFileName e base) = base.map toupper) := by
  have hset : SetFileName e (base ++ 46 :: ext) =
      { e with name := padField 8 base ++ padField 3 ext } := by
    simp only [SetFileName, splitLastDot_dotted base ext hdot]
  have hfmt : FormatName (SetFileName e (base ++ 46 :: ext)) =
      (if ext = [] then base.map toupper else base.map toupper ++ 46 :: ext.map toupper) := by
    rw [hset]
    simp only [FormatName, ReadName_packed e base ext hb hx hb0 hx0 hbs hxs,
      List.map_eq_nil_iff]
  refine ⟨?_, ?_, hfmt, ?_, ?_⟩
  · rw [hset]
    simp only [padField_of_le 8 base hb, padField_of_le 3 ext hx]
  · rw [hset]
    simp only [List.length_append, padField_length 8 base hb, padField_length 3 ext hx]
  · intro hne
    rw [hfmt, if_neg hne]
    simp [toupper]
  · intro hnd
    have hset2 : SetFileName e base = { e with name := padField 8 base ++ padField 3 [] } := by
      simp only [SetFileName, splitLastDot_none base hnd]
    constructor
    · rw [hset2]
      simp only [padField_of_le 8 base hb]
      rfl
    · rw [hset2]
      simp only [FormatName,
        ReadName_packed e base [] hb (by simp) hb0 (by simp) hbs (by simp)]
      simp

/-- C3 (as amended) for the name `hello.txt`: it is stored as `HELLO   TXT` and
formatted back as `HELLO.TXT`. -/
theorem name_round_trip_witness :
    (SetFileName sampleEntry ([104, 101, 108, 108, 111] ++ 46 :: [116, 120, 116])).name =
      ([104, 101, 108, 108, 111].map toupper ++ List.replicate (8 - 5) 0x20) ++
      ([116, 120, 116].map toupper ++ List.replicate (3 - 3) 0x20) ∧
    FormatName (SetFileName sampleEntry ([104, 101, 108, 108, 111] ++ 46 :: [116, 120, 116])) =
      ([104, 101, 108, 108, 111] ++ 46 :: [116, 120, 116]).map toupper :=
  have h := name_round_trip sampleEntry [104, 101, 108, 108, 111] [116, 120, 116]
    (by decide) (by decide) (by decide) (by decide) (by decide) (by decide) (by decide)
  ⟨h.1, h.2.2.2.1 (by decide)⟩

/-- C3 as stated fails for the name `A .TXT`: its base `A ` has 2 characters and its
extension 3, yet `FormatName` after `SetFileName` yields `A.TXT`, which is not the
upper-cased original name: the trailing space of the base is read as padding. -/
theorem name_round_trip_counterexample :
    ([65, 32] : List Nat).length ≤ 8 ∧ ([84, 88, 84] : List Nat).length ≤ 3 ∧
    splitLastDot [65, 32, 46, 84, 88, 84] = some ([65, 32], [84, 88, 84]) ∧
    (SetFileName sampleEntry [65, 32, 46, 84, 88, 84]).name =
      [65, 32, 32, 32, 32, 32, 32, 32, 84, 88, 84] ∧
    FormatName (SetFileName sampleEntry [65, 32, 46, 84, 88, 84]) = [65, 46, 84, 88, 84] ∧
    FormatName (SetFileName sampleEntry [65, 32, 46, 84, 88, 84]) ≠
      [65, 32, 46, 84, 88, 84].map toupper := by
  decide

/-- Reading the entry that was just written. -/
theorem getD_set_self (fat : List Nat) (i v : Nat) (h : i < fat.length) :
    (fat.set i v).getD i 0 = v := by
  simp [List.getD_eq_getElem?_getD, List.getElem?_set, h]

/-- Writing one entry leaves the others as they were. -/
theorem getD_set_other (fat : List Nat) (i j v : Nat) (h : j ≠ i) :
    (fat.set i v).getD j 0 = fat.getD j 0 := by
  simp [List.getD_eq_getElem?_getD, List.getElem?_set, Ne.symm h]

/-- The scan ends the chain at the current cluster when it stops. -/
theorem extendLoop_stop (fat : List Nat) (cur : Nat) (hcur : cur < fat.length) :
    Linked (fat.set cur kEndOfClusterchain) cur [] ∧
    cur = ([] : List Nat).getLastD cur ∧
    (fat.set cur kEndOfClusterchain).length = fat.length ∧
    ∀ j, j ≠ cur → j ∉ ([] : List Nat) →
      (fat.set cur kEndOfClusterchain).getD j 0 = fat.getD j 0 :=
  ⟨getD_set_self fat cur _ hcur, rfl, List.length_set _ _ _,
    fun j hj _ => getD_set_other fat cur j _ hj⟩

/-- The scan links the current cluster to the first `n` free candidates in order, ends
the chain at the last of them, and changes no other entry. -/
theorem extendLoop_linked (cands : List Nat) :
    ∀ (fat : List Nat) (cur n : Nat), cands.Nodup →
      (cur ∈ cands → fat.getD cur 0 ≠ 0) → cur < fat.length →
      (∀ c ∈ cands, c ≠ 0 ∧ c < fat.length) →
      Linked (extendLoop fat cur cands n).1 cur
        ((cands.filter (fun c => fat.getD c 0 == 0)).take n) ∧
      (extendLoop fat cur cands n).2 =
        ((cands.filter (fun c => fat.getD c 0 == 0)).take n).getLastD cur ∧
      (extendLoop fat cur cands n).1.length = fat.length ∧
      ∀ j, j ≠ cur → j ∉ (cands.filter (fun c => fat.getD c 0 == 0)).take n →
        (extendLoop fat cur cands n).1.getD j 0 = fat.getD j 0 := by
  induction cands with
  | nil =>
    intro fat cur n _ _ hcur _
    cases n with
    | zero => exact extendLoop_stop fat cur hcur
    | succ n => exact extendLoop_stop fat cur hcur
  | cons c cs ih =>
    intro fat cur n hnd hnot hcur hlt
    cases n with
    | zero => exact extendLoop_stop fat cur hcur
    | succ n =>
      have hnd2 := (List.nodup_cons.mp hnd)
      have hcpos := hlt c (List.mem_cons_self _ _)
      by_cases hfree : fat.getD c 0 = 0
      · have hc : c ≠ cur := by
          intro h
          exact hnot (h ▸ List.mem_cons_self _ _) (h ▸ hfree)
        have hfilter : cs.filter (fun x => (fat.set cur c).getD x 0 == 0)
            = cs.filter (fun x => fat.getD x 0 == 0) := by
          apply List.filter_congr
          intro x hx
          by_cases hxc : x = cur
          · subst hxc
            rw [getD_set_self fat x c hcur]
            have h1 : (c == 0) = false := by simpa using hcpos.1
            have h2 : (fat.getD x 0 == 0) = false := by
              simpa using hnot (List.mem_cons_of_mem _ hx)
            rw [h1, h2]
          · rw [getD_set_other fat cur x c hxc]
        obtain ⟨h1, h2, h3, h4⟩ := ih (fat.set cur c) c n hnd2.2
          (fun h => absurd h hnd2.1)
          (by simpa using hcpos.2)
          (fun x hx => by simpa using hlt x (List.mem_cons_of_mem _ hx))
        rw [hfilter] at h1 h2 h4
        have hcur_notin : cur ∉ (cs.filter (fun x => fat.getD x 0 == 0)).take n := by
          intro h
          have hm := List.mem_filter.mp (List.mem_of_mem_take h)
          exact hnot (List.mem_cons_of_mem _ hm.1) (by simpa using hm.2)
        simp only [extendLoop, hfree, beq_self_eq_true, if_true, List.filter_cons,
          List.take_succ_cons, Linked]
        refine ⟨⟨?_, h1⟩, ?_, ?_, ?_⟩
        · rw [h4 cur (Ne.symm hc) hcur_notin, getD_set_self fat cur c hcur]
        · rw [h2]
          cases (cs.filter (fun x => fat.getD x 0 == 0)).take n <;> simp [List.getLastD]
        · simpa using h3
        · intro j hj hjn
          simp only [List.mem_cons, not_or] at hjn
          rw [h4 j hjn.1 hjn.2, getD_set_other fat cur j c hj]
      · have hb : (fat.getD c 0 == 0) = false := by simpa using hfree
        obtain ⟨h1, h2, h3, h4⟩ := ih fat cur (n + 1) hnd2.2
          (fun h => hnot (List.mem_cons_of_mem _ h)) hcur
          (fun x hx => hlt x (List.mem_cons_of_mem _ hx))
        simp only [extendLoop, hb, List.filter_cons, Bool.false_eq_true, if_false]
        exact ⟨h1, h2, h3, h4⟩

/-- A FAT entry that holds a cluster number below the threshold is followed. -/
theorem NextCluster_of_link (fat : List Nat) (cur c : Nat) (h : fat.getD cur 0 = c)
    (hc : c < 0x0ffffff8) : NextCluster fat cur = c := by
  simp only [NextCluster, IsEndOfClusterchain, h, decide_eq_true_eq]
  rw [if_neg (by omega)]

/-- A FAT entry that holds the sentinel ends the chain. -/
theorem NextCluster_of_end (fat : List Nat) (cur : Nat)
    (h : fat.getD cur 0 = kEndOfClusterchain) : NextCluster fat cur = kEndOfClusterchain := by
  simp only [NextCluster, IsEndOfClusterchain, h, decide_eq_true_eq]
  rw [if_pos (by decide)]

/-- Following a linked chain visits its clusters in order, then reaches the sentinel. -/
theorem Linked_iterate (fat : List Nat) (cs : List Nat) :
    ∀ cur, Linked fat cur cs → (∀ c ∈ cs, c < 0x0ffffff8) →
      (∀ i, i < cs.length → cs[i]? = some ((NextCluster fat)^[i + 1] cur)) ∧
      (NextCluster fat)^[cs.length + 1] cur = kEndOfClusterchain := by
  induction cs with
  | nil =>
    intro cur h _
    exact ⟨fun i hi => absurd hi (by simp), by simpa using NextCluster_of_end fat cur h⟩
  | cons c cs ih =>
    intro cur h hlt
    obtain ⟨h1, h2⟩ := h
    have hstep : NextCluster fat cur = c :=
      NextCluster_of_link fat cur c h1 (hlt c (List.mem_cons_self _ _))
    obtain ⟨ih1, ih2⟩ := ih c h2 (fun x hx => hlt x (List.mem_cons_of_mem _ hx))
    constructor
    · intro i hi
      cases i with
      | zero => simp [hstep]
      | succ i =>
        rw [Function.iterate_succ_apply, hstep]
        simpa using ih1 i (by simpa using hi)
    · rw [List.length_cons, Function.iterate_succ_apply, hstep]
      exact ih2


/-- A traversal that meets the sentinel after exactly `n` steps has length `n`. -/
theorem chainLength_of_iterate (fat : List Nat) :
    ∀ (n fuel start : Nat), n < fuel →
      (∀ i, i < n → IsEndOfClusterchain ((NextCluster fat)^[i] start) = false) →
      (NextCluster fat)^[n] start = kEndOfClusterchain →
      chainLength fat fuel start = some n := by
  intro n
  induction n with
  | zero =>
    intro fuel start hf _ hend
    obtain ⟨f, rfl⟩ : ∃ f, fuel = f + 1 := ⟨fuel - 1, by omega⟩
    simp only [Function.iterate_zero, id_eq] at hend
    simp only [chainLength, hend, if_true]
  | succ n ih =>
    intro fuel start hf hnot hend
    obtain ⟨f, rfl⟩ : ∃ f, fuel = f + 1 := ⟨fuel - 1, by omega⟩
    have h0 := hnot 0 (by omega)
    simp only [Function.iterate_zero, id_eq] at h0
    have hne : start ≠ kEndOfClusterchain := by
      intro h
      rw [h] at h0
      exact absurd h0 (by decide)
    rw [Function.iterate_succ_apply] at hend
    have hrec := ih f (NextCluster fat start) (by omega)
      (fun i hi => by
        have := hnot (i + 1) (by omega)
        rw [Function.iterate_succ_apply] at this
        exact this) hend
    simp only [chainLength, hne, if_false, hrec, Option.map_some']

/-- The scan visits no cluster twice. -/
theorem scanOrder_nodup (fat : List Nat) : (scanOrder fat).Nodup :=
  (List.nodup_range _).filter _

/-- The scan visits clusters of the table, from cluster 2 on. -/
theorem mem_scanOrder (fat : List Nat) (c : Nat) (h : c ∈ scanOrder fat) :
    2 ≤ c ∧ c < fat.length := by
  have h1 := List.mem_filter.mp h
  exact ⟨by simpa using h1.2, List.mem_range.mp h1.1⟩

/-- A free cluster is a cluster of the table, from 2 on, whose entry is 0. -/
theorem mem_freeClusters (fat : List Nat) (c : Nat) (h : c ∈ freeClusters fat) :
    2 ≤ c ∧ c < fat.length ∧ fat.getD c 0 = 0 := by
  have h1 := List.mem_filter.mp h
  have h2 := mem_scanOrder fat c h1.1
  exact ⟨h2.1, h2.2, by simpa using h1.2⟩

/-- The free clusters are pairwise distinct. -/
theorem freeClusters_nodup (fat : List Nat) : (freeClusters fat).Nodup :=
  (scanOrder_nodup fat).filter _

/-- The free clusters are at most as many as the entries of the table. -/
theorem freeClusters_length_le (fat : List Nat) : (freeClusters fat).length ≤ fat.length := by
  unfold freeClusters scanOrder
  calc _ ≤ ((List.range fat.length).filter (fun c => decide (2 ≤ c))).length :=
        List.length_filter_le _ _
    _ ≤ (List.range fat.length).length := List.length_filter_le _ _
    _ = fat.length := List.length_range _

/-- After `ExtendCluster` the tail is linked to the first `n` free clusters. -/
theorem ExtendCluster_linked (fat : List Nat) (tail n : Nat) (ht : tail < fat.length)
    (hnf : fat.getD tail 0 ≠ 0) :
    Linked (ExtendCluster fat tail n).1 tail ((freeClusters fat).take n) ∧
    (ExtendCluster fat tail n).2 = ((freeClusters fat).take n).getLastD tail := by
  have h := extendLoop_linked (scanOrder fat) fat tail n (scanOrder_nodup fat)
    (fun _ => hnf) ht
    (fun c hc => ⟨by have := (mem_scanOrder fat c hc).1; omega, (mem_scanOrder fat c hc).2⟩)
  exact ⟨h.1, h.2.1⟩

/-- Marking the first free cluster leaves the other free clusters. -/
theorem freeClusters_set_head (fat : List Nat) (first : Nat) (rest : List Nat)
    (h : freeClusters fat = first :: rest) :
    freeClusters (fat.set first kEndOfClusterchain) = rest := by
  have hmem := mem_freeClusters fat first (h ▸ List.mem_cons_self _ _)
  have hnd : (first :: rest).Nodup := h ▸ freeClusters_nodup fat
  have hscan : scanOrder (fat.set first kEndOfClusterchain) = scanOrder fat := by
    simp [scanOrder]
  have h1 : freeClusters (fat.set first kEndOfClusterchain)
      = (freeClusters fat).filter (fun x => x != first) := by
    unfold freeClusters
    rw [hscan, List.filter_filter]
    apply List.filter_congr
    intro x _
    by_cases hx : x = first
    · subst hx
      rw [getD_set_self fat x _ hmem.2.1]
      simp [kEndOfClusterchain]
    · rw [getD_set_other fat first x _ hx]
      simp [hx]
  rw [h1, h, List.filter_cons]
  simp only [bne_self_eq_false, Bool.false_eq_true, if_false]
  rw [List.filter_eq_self]
  intro x hx
  have : x ≠ first := fun hxf => (List.nodup_cons.mp hnd).1 (hxf ▸ hx)
  simpa using this

/-- C4: in a FAT whose cluster numbers are below the end-of-chain threshold and that has
at least `n ≥ 1` free clusters, the first `n` free clusters are `n` distinct clusters;
`AllocateClusterChain n` returns the first of them, and starting there the `i`-th
application of `NextCluster` (`i < n`) is at the `i`-th of them and not at the end of
the chain, while the `n`-th application returns `kEndOfClusterchain`, so that the
traversal of the chain ends after exactly `n` clusters. The same holds
for the clusters that `ExtendCluster tail n` appends to an end-of-chain cluster `tail`,
starting at `NextCluster tail`; the cluster it returns is the last of them. -/
theorem cluster_chain_traversal (fat : List Nat) (n : Nat) (hn : 1 ≤ n)
    (hfree : n ≤ (freeClusters fat).length) (hsize : fat.length ≤ 0x0ffffff8) :
    ((freeClusters fat).take n).length = n ∧ ((freeClusters fat).take n).Nodup ∧
    (∀ c ∈ (freeClusters fat).take n, 2 ≤ c ∧ c < fat.length ∧ fat.getD c 0 = 0) ∧
    (∃ fat2 first, AllocateClusterChain fat n = some (fat2, first) ∧
      (∀ i, i < n → ((freeClusters fat).take n)[i]? = some ((NextCluster fat2)^[i] first) ∧
        IsEndOfClusterchain ((NextCluster fat2)^[i] first) = false) ∧
      (NextCluster fat2)^[n] first = kEndOfClusterchain ∧
      (∀ fuel, n < fuel → chainLength fat2 fuel first = some n)) ∧
    (∀ tail, tail < fat.length → IsEndOfClusterchain (fat.getD tail 0) = true →
      (∀ i, i < n → ((freeClusters fat).take n)[i]? =
          some ((NextCluster (ExtendCluster fat tail n).1)^[i]
            (NextCluster (ExtendCluster fat tail n).1 tail)) ∧
        IsEndOfClusterchain ((NextCluster (ExtendCluster fat tail n).1)^[i]
            (NextCluster (ExtendCluster fat tail n).1 tail)) = false) ∧
      (NextCluster (ExtendCluster fat tail n).1)^[n]
          (NextCluster (ExtendCluster fat tail n).1 tail) = kEndOfClusterchain ∧
      (∀ fuel, n < fuel → chainLength (ExtendCluster fat tail n).1 fuel
          (NextCluster (ExtendCluster fat tail n).1 tail) = some n) ∧
      ((freeClusters fat).take n).getLast? = some (ExtendCluster fat tail n).2) := by
  have hmem : ∀ c ∈ (freeClusters fat).take n, 2 ≤ c ∧ c < fat.length ∧ fat.getD c 0 = 0 :=
    fun c hc => mem_freeClusters fat c (List.mem_of_mem_take hc)
  have hlen : ((freeClusters fat).take n).length = n := by
    rw [List.length_take]; omega
  have hnotend : ∀ (i x : Nat), ((freeClusters fat).take n)[i]? = some x →
      IsEndOfClusterchain x = false := by
    intro i x hx
    have := (hmem x (List.getElem?_mem hx)).2.1
    simp only [IsEndOfClusterchain, decide_eq_false_iff_not]
    omega
  refine ⟨hlen, (freeClusters_nodup fat).sublist (List.take_sublist _ _), hmem, ?_, ?_⟩
  · obtain ⟨first, rest, hfr⟩ : ∃ first rest, freeClusters fat = first :: rest := by
      cases hf : freeClusters fat with
      | nil => rw [hf] at hfree; simp at hfree; omega
      | cons a l => exact ⟨a, l, rfl⟩
    have hfirst := mem_freeClusters fat first (hfr ▸ List.mem_cons_self _ _)
    have hn1 : (n + 2 ^ 64 - 1) % 2 ^ 64 = n - 1 := by
      have := freeClusters_length_le fat
      omega
    have hlink := (ExtendCluster_linked (fat.set first kEndOfClusterchain) first (n - 1)
      (by simpa using hfirst.2.1)
      (by rw [getD_set_self fat first _ hfirst.2.1]; decide)).1
    rw [freeClusters_set_head fat first rest hfr] at hlink
    have htake : (freeClusters fat).take n = first :: rest.take (n - 1) := by
      rw [hfr]
      obtain ⟨m, rfl⟩ : ∃ m, n = m + 1 := ⟨n - 1, by omega⟩
      simp
    have hrest : ∀ c ∈ rest.take (n - 1), c < 0x0ffffff8 := by
      intro c hc
      have := (hmem c (htake ▸ List.mem_cons_of_mem _ hc)).2.1
      omega
    obtain ⟨hit, hend⟩ := Linked_iterate _ (rest.take (n - 1)) first hlink hrest
    have hrl : (rest.take (n - 1)).length = n - 1 := by
      have := hlen
      rw [htake, List.length_cons] at this
      omega
    have hvals : ∀ i, i < n → ((freeClusters fat).take n)[i]? = some ((NextCluster
          (ExtendCluster (fat.set first kEndOfClusterchain) first (n - 1)).1)^[i] first) ∧
        IsEndOfClusterchain ((NextCluster
          (ExtendCluster (fat.set first kEndOfClusterchain) first (n - 1)).1)^[i] first)
          = false := by
      intro i hi
      have hval : ((freeClusters fat).take n)[i]? = some ((NextCluster
          (ExtendCluster (fat.set first kEndOfClusterchain) first (n - 1)).1)^[i] first) := by
        rw [htake]
        cases i with
        | zero => simp
        | succ i =>
          rw [List.getElem?_cons_succ]
          exact hit i (by omega)
      exact ⟨hval, hnotend i _ hval⟩
    have hnl : (rest.take (n - 1)).length + 1 = n := by omega
    rw [hnl] at hend
    refine ⟨(ExtendCluster (fat.set first kEndOfClusterchain) first (n - 1)).1, first,
      ?_, hvals, hend, ?_⟩
    · simp only [AllocateClusterChain, hfr, List.head?_cons, hn1]
    · intro fuel hfuel
      exact chainLength_of_iterate _ n fuel first hfuel (fun i hi => (hvals i hi).2) hend
  · intro tail ht heoc
    have hnf : fat.getD tail 0 ≠ 0 := by
      simp only [IsEndOfClusterchain, decide_eq_true_eq] at heoc
      omega
    obtain ⟨hlink, hlast⟩ := ExtendCluster_linked fat tail n ht hnf
    obtain ⟨hit, hend⟩ := Linked_iterate _ ((freeClusters fat).take n) tail hlink
      (fun c hc => by have := (hmem c hc).2.1; omega)
    have hvals : ∀ i, i < n → ((freeClusters fat).take n)[i]? =
          some ((NextCluster (ExtendCluster fat tail n).1)^[i]
            (NextCluster (ExtendCluster fat tail n).1 tail)) ∧
        IsEndOfClusterchain ((NextCluster (ExtendCluster fat tail n).1)^[i]
            (NextCluster (ExtendCluster fat tail n).1 tail)) = false := by
      intro i hi
      have hval := hit i (by omega)
      rw [Function.iterate_succ_apply] at hval
      exact ⟨hval, hnotend i _ hval⟩
    rw [hlen, Function.iterate_succ_apply] at hend
    refine ⟨hvals, hend, ?_, ?_⟩
    · intro fuel hfuel
      exact chainLength_of_iterate _ n fuel _ hfuel (fun i hi => (hvals i hi).2) hend
    · rw [hlast]
      cases hk : (freeClusters fat).take n with
      | nil => rw [hk] at hlen; simp at hlen; omega
      | cons a l => rw [List.getLastD_cons, List.getLast?_cons, List.getLastD_eq_getLast?]

/-- C4 on the sample FAT with `n = 3`: the chain 3 → 6 → 7 is allocated. -/
theorem cluster_chain_traversal_witness :
    AllocateClusterChain sampleFat 3 =
      some ([0x0ffffff8, 0x0fffffff, 0x0fffffff, 6, 5, 0x0ffffff8, 7, 0x0fffffff, 9,
        0x0fffffff, 0, 0], 3) ∧
    (∃ fat2 first, AllocateClusterChain sampleFat 3 = some (fat2, first) ∧
      (∀ i, i < 3 → ((freeClusters sampleFat).take 3)[i]? =
          some ((NextCluster fat2)^[i] first) ∧
        IsEndOfClusterchain ((NextCluster fat2)^[i] first) = false) ∧
      (NextCluster fat2)^[3] first = kEndOfClusterchain ∧
      (∀ fuel, 3 < fuel → chainLength fat2 fuel first = some 3)) :=
  ⟨by decide,
   (cluster_chain_traversal sampleFat 3 (by decide) (by decide) (by decide)).2.2.2.1⟩

/-- An entry found by the cluster scan is an entry of the cluster, at the index
reported, that matches the name and is neither the end mark nor a deleted slot. -/
theorem scanCluster_found (es : List DirectoryEntry) (name : List Nat) :
    ∀ (idx i : Nat) (e : DirectoryEntry), scanCluster es name idx = .found i e →
      idx ≤ i ∧ es[i - idx]? = some e ∧ NameIsEqual e name = true ∧
      e.name.head? ≠ some 0x00 ∧ e.name.head? ≠ some 0xE5 := by
  induction es with
  | nil => intro idx i e h; simp [scanCluster] at h
  | cons x xs ih =>
    intro idx i e h
    unfold scanCluster at h
    split at h
    · exact absurd h (by simp)
    · rename_i h0
      split at h
      · obtain ⟨h1, h2, h3⟩ := ih (idx + 1) i e h
        have hi : i - idx = (i - (idx + 1)) + 1 := by omega
        exact ⟨by omega, by rw [hi, List.getElem?_cons_succ]; exact h2, h3⟩
      · rename_i h5
        split at h
        · rename_i hm
          injection h with hi he
          subst hi he
          exact ⟨le_refl _, by simp, hm, h0, h5⟩
        · obtain ⟨h1, h2, h3⟩ := ih (idx + 1) i e h
          have hi : i - idx = (i - (idx + 1)) + 1 := by omega
          exact ⟨by omega, by rw [hi, List.getElem?_cons_succ]; exact h2, h3⟩

end fat

/-- C10: `Log` records the message exactly when `level <= log_level` (a smaller value
is a higher priority). In that case, for a message that fits the buffer, the formatted
string is put to the console and its length is returned; otherwise `Log` returns 0 and
leaves the console and the threshold untouched. At start-up the threshold is `kWarn`:
`kError` and `kWarn` are recorded, `kInfo` and `kDebug` are not. -/
theorem Log_spec (st : LoggerState) (level : LogLevel) (formatted : List Nat)
    (hfit : formatted.length < kLogBufferSize) :
    (level.toNat ≤ st.log_level.toNat →
      Log st level formatted =
        some ((formatted.length : Int),
          { log_level := st.log_level, console := st.console ++ [formatted] })) ∧
    (¬ level.toNat ≤ st.log_level.toNat → Log st level formatted = some (0, st)) ∧
    (∃ r, Log st level formatted = some r ∧
      (r.2.console = st.console ++ [formatted] ↔ level.toNat ≤ st.log_level.toNat) ∧
      (r.2.console = st.console ↔ ¬ level.toNat ≤ st.log_level.toNat)) ∧
    LoggerState.initial.log_level = LogLevel.kWarn ∧
    Log LoggerState.initial LogLevel.kError formatted =
      some ((formatted.length : Int), { log_level := .kWarn, console := [formatted] }) ∧
    Log LoggerState.initial LogLevel.kWarn formatted =
      some ((formatted.length : Int), { log_level := .kWarn, console := [formatted] }) ∧
    Log LoggerState.initial LogLevel.kInfo formatted = some (0, LoggerState.initial) ∧
    Log LoggerState.initial LogLevel.kDebug formatted = some (0, LoggerState.initial) := by
  have hrec : level.toNat ≤ st.log_level.toNat →
      Log st level formatted =
        some ((formatted.length : Int),
          { log_level := st.log_level, console := st.console ++ [formatted] }) := by
    intro h
    simp [Log, hfit, Nat.not_lt.mpr h]
  have hdrop : ¬ level.toNat ≤ st.log_level.toNat → Log st level formatted = some (0, st) := by
    intro h
    simp [Log, Nat.lt_of_not_le h]
  refine ⟨hrec, hdrop, ?_, rfl, ?_, ?_, ?_, ?_⟩
  · by_cases h : level.toNat ≤ st.log_level.toNat
    · exact ⟨_, hrec h, by simp [h], by simp [h]⟩
    · exact ⟨_, hdrop h, by simp [h], by simp [h]⟩
  · simp [Log, hfit, LoggerState.initial, LogLevel.toNat]
  · simp [Log, hfit, LoggerState.initial, LogLevel.toNat]
  · simp [Log, LoggerState.initial, LogLevel.toNat]
  · simp [Log, LoggerState.initial, LogLevel.toNat]

/-- C10 for the message "hi" logged at `kError` under the start-up threshold. -/
theorem Log_spec_witness :
    Log LoggerState.initial LogLevel.kError [104, 105] =
      some (2, { log_level := .kWarn, console := [[104, 105]] }) ∧
    Log LoggerState.initial LogLevel.kInfo [104, 105] = some (0, LoggerState.initial) :=
  have h := Log_spec LoggerState.initial LogLevel.kError [104, 105] (by decide)
  ⟨h.2.2.2.2.1, h.2.2.2.2.2.2.1⟩

/-- C11 (as amended): after `SetLogLevel(L)` a call of `Log` at `level` writes to the
console exactly when `level <= L` (priority higher than or equal to `L`): then, for a
message that fits the buffer, the message is put to the console and its length is
returned, in particular for `level = L`; for `level > L` nothing is written and 0 is
returned. In both cases the threshold stays `L` for the calls that follow. -/
theorem Log_after_SetLogLevel (st : LoggerState) (L level : LogLevel) (formatted : List Nat)
    (hfit : formatted.length < kLogBufferSize) :
    (SetLogLevel st L).log_level = L ∧ (SetLogLevel st L).console = st.console ∧
    (level.toNat ≤ L.toNat →
      Log (SetLogLevel st L) level formatted =
        some ((formatted.length : Int),
          { log_level := L, console := st.console ++ [formatted] })) ∧
    (L.toNat < level.toNat →
      Log (SetLogLevel st L) level formatted = some (0, SetLogLevel st L)) ∧
    Log (SetLogLevel st L) L formatted =
      some ((formatted.length : Int),
        { log_level := L, console := st.console ++ [formatted] }) ∧
    (∃ r, Log (SetLogLevel st L) level formatted = some r ∧ r.2.log_level = L ∧
      (r.2.console ≠ st.console ↔ level.toNat ≤ L.toNat)) := by
  have hrec : ∀ lv : LogLevel, lv.toNat ≤ L.toNat →
      Log (SetLogLevel st L) lv formatted =
        some ((formatted.length : Int),
          { log_level := L, console := st.console ++ [formatted] }) := by
    intro lv h
    simp [Log, SetLogLevel, hfit, Nat.not_lt.mpr h]
  have hdrop : L.toNat < level.toNat →
      Log (SetLogLevel st L) level formatted = some (0, SetLogLevel st L) := by
    intro h
    simp [Log, SetLogLevel, h]
  refine ⟨rfl, rfl, hrec level, hdrop, hrec L (le_refl _), ?_⟩
  by_cases h : level.toNat ≤ L.toNat
  · exact ⟨_, hrec level h, rfl, by simp [h]⟩
  · exact ⟨_, hdrop (by omega), rfl, by simp [h, SetLogLevel]⟩

/-- C11 (as amended) for the message "hi" logged at `kInfo` after `SetLogLevel(kInfo)`. -/
theorem Log_after_SetLogLevel_witness :
    Log (SetLogLevel LoggerState.initial LogLevel.kInfo) LogLevel.kInfo [104, 105] =
      some (2, { log_level := .kInfo, console := [[104, 105]] }) ∧
    Log (SetLogLevel LoggerState.initial LogLevel.kInfo) LogLevel.kDebug [104, 105] =
      some (0, SetLogLevel LoggerState.initial LogLevel.kInfo) :=
  ⟨(Log_after_SetLogLevel LoggerState.initial LogLevel.kInfo LogLevel.kInfo [104, 105]
      (by decide)).2.2.2.2.1,
   (Log_after_SetLogLevel LoggerState.initial LogLevel.kInfo LogLevel.kDebug [104, 105]
      (by decide)).2.2.2.1 (by decide)⟩

/-- C11 as stated fails at `level = L = kInfo`: `level` is not strictly below `L`, yet
after `SetLogLevel(kInfo)` the call `Log(kInfo, "hi")` puts "hi" to the console and
returns 2, not 0. -/
theorem Log_after_SetLogLevel_counterexample :
    ¬ (LogLevel.kInfo.toNat < LogLevel.kInfo.toNat) ∧
    Log (SetLogLevel LoggerState.initial LogLevel.kInfo) LogLevel.kInfo [104, 105] =
      some (2, { log_level := .kInfo, console := [[104, 105]] }) ∧
    Log (SetLogLevel LoggerState.initial LogLevel.kInfo) LogLevel.kInfo [104, 105] ≠
      some (0, SetLogLevel LoggerState.initial LogLevel.kInfo) := by
  decide

/-- The constants of `memory_manager.hpp`, evaluated. -/
theorem frame_constants :
    kBytesPerFrame = 4096 ∧ kBitsPerMapLine = 64 ∧ kFrameCount = 33554432 ∧
    kMaxPhysicalMemoryBytes = 137438953472 := by
  decide

/-- C12: for a bitmap line `n` and a bit `m < kBitsPerMapLine` with
`n * kBitsPerMapLine + m < kFrameCount`, the frame `FrameID(n * kBitsPerMapLine + m)`
has that number as `ID()` and `Frame()` is the address
`kBytesPerFrame * (n * kBitsPerMapLine + m)`, with `kBytesPerFrame = 4096` and without
64-bit overflow; two such pairs with the same address are equal, and the addresses of
two consecutive frames of the range are exactly 4096 apart. -/
theorem FrameID_spec (n m : Nat) (hm : m < kBitsPerMapLine)
    (hr : n * kBitsPerMapLine + m < kFrameCount) :
    kBytesPerFrame = 4096 ∧
    (FrameID.mk (n * kBitsPerMapLine + m)).ID = n * kBitsPerMapLine + m ∧
    (FrameID.mk (n * kBitsPerMapLine + m)).Frame =
      kBytesPerFrame * (n * kBitsPerMapLine + m) ∧
    kBytesPerFrame * (n * kBitsPerMapLine + m) < 2 ^ 64 ∧
    (∀ n2 m2 : Nat, m2 < kBitsPerMapLine → n2 * kBitsPerMapLine + m2 < kFrameCount →
      (FrameID.mk (n2 * kBitsPerMapLine + m2)).Frame =
        (FrameID.mk (n * kBitsPerMapLine + m)).Frame → n2 = n ∧ m2 = m) ∧
    (n * kBitsPerMapLine + m + 1 < kFrameCount →
      (FrameID.mk (n * kBitsPerMapLine + m + 1)).Frame =
        (FrameID.mk (n * kBitsPerMapLine + m)).Frame + 4096 ∧
      (FrameID.mk (n * kBitsPerMapLine + m + 1)).Frame -
        (FrameID.mk (n * kBitsPerMapLine + m)).Frame = 4096) := by
  obtain ⟨hb, hl, hc, _⟩ := frame_constants
  have hframe : ∀ id : Nat, id < 33554432 → (FrameID.mk id).Frame = 4096 * id := by
    intro id hid
    simp only [FrameID.Frame, hb]
    omega
  rw [hl] at hm
  rw [hl, hc] at hr
  simp only [hl, hc, hb]
  refine ⟨trivial, rfl, hframe _ hr, by omega, ?_, ?_⟩
  · intro n2 m2 hm2 hr2 heq
    rw [hframe _ hr2, hframe _ hr] at heq
    omega
  · intro hnext
    rw [hframe _ hnext, hframe _ hr]
    omega

/-- C12 for bit 5 of line 3: frame 197 at address `197 * 4096`. -/
theorem FrameID_spec_witness :
    (FrameID.mk (3 * kBitsPerMapLine + 5)).ID = 197 ∧
    (FrameID.mk (3 * kBitsPerMapLine + 5)).Frame = 4096 * 197 :=
  have h := FrameID_spec 3 5 (by decide) (by decide)
  ⟨h.2.1.trans (by decide), h.2.2.1.trans (by decide)⟩

/-- C13: with `1_KiB = 1024`, `1_MiB = 1024^2`, `1_GiB = 1024^3`,
`kMaxPhysicalMemoryBytes = 128 * 2^30`, `kBytesPerFrame = 4096` and
`kBitsPerMapLine = 64`, the frame count is `2^25`, the frames cover
`kMaxPhysicalMemoryBytes` exactly, and `alloc_map_` has `2^19` elements whose bits are
exactly as many as the frames. -/
theorem frame_count_spec :
    KiB 1 = 1024 ∧ MiB 1 = 1024 ^ 2 ∧ GiB 1 = 1024 ^ 3 ∧
    kMaxPhysicalMemoryBytes = 128 * 2 ^ 30 ∧ kBytesPerFrame = 4096 ∧
    kBitsPerMapLine = 64 ∧
    kFrameCount = 2 ^ 25 ∧
    kFrameCount * kBytesPerFrame = kMaxPhysicalMemoryBytes ∧
    kMaxPhysicalMemoryBytes % kBytesPerFrame = 0 ∧
    allocMapLength = kFrameCount / kBitsPerMapLine ∧ allocMapLength = 2 ^ 19 ∧
    allocMapLength * kBitsPerMapLine = kFrameCount ∧
    kFrameCount % kBitsPerMapLine = 0 := by
  decide
